import Mathlib

/-!
Shallow embedding of the njses-http pipeline (src/src/module.ts, decorators.ts,
const.ts, errors.ts, types.ts) and proofs about its specification claims.

Conventions of the embedding:
* TypeScript `undefined`/`null`-able values become `Option`.
* The external glob / regexp engines (micromatch, RegExp) are out of scope per
  the spec; a matcher constructor carries the predicate the engine induces.
* Throwing code is modelled with `Except PipeErr`; `HTTPError` is the
  `PipeErr.http` constructor carrying its `NormalizedResponse`.
* `Headers` is a list of (lowercased key, value) pairs; `get`/`set` lowercase
  the looked-up name like the web `Headers` class.
* The opaque transport request type `HTTPRequest` is instantiated with
  `String`; the opaque transport response `HTTPResponse` is instantiated with
  the pair (request, response) the sender received, so theorems can observe
  exactly what reaches the sender.
-/

namespace NjsesHttp

/-- Opaque transport request (`interface HTTPRequest {}` in types.ts). -/
abbrev HTTPRequest := String

/-- `HTTPMatcherCheck` (types.ts): string glob | RegExp | predicate | array.
The glob and regexp engines are external capabilities; each constructor
carries the predicate that engine computes for the stored pattern. -/
inductive Matcher where
  | glob (test : String → Bool)
  | regex (test : String → Bool)
  | pred (f : String → Bool)
  | anyOf (ms : List Matcher)

mutual

/-- `HTTPModule.matches` (module.ts:65-71): `null`/`undefined` handled by
`matchesOpt`; an array matches iff some element matches. -/
def matchesCk (p : String) : Matcher → Bool
  | .glob t => t p
  | .regex t => t p
  | .pred f => f p
  | .anyOf ms => matchesAny p ms

/-- `matcher.some((m) => this.matches(path, m))` (module.ts:67). -/
def matchesAny (p : String) : List Matcher → Bool
  | [] => false
  | m :: ms => matchesCk p m || matchesAny p ms

end

/-- `matches` with the `matcher == null` branch (module.ts:66): a missing
matcher always matches. -/
def matchesOpt (p : String) : Option Matcher → Bool
  | none => true
  | some m => matchesCk p m

/-- JS values that can flow through parameter injection: the fields of a
`HTTPNormalizedRequest` plus primitives.  `nreq` is a normalized request
passed as an ordinary argument (module.ts:153 passes `[normalizedRequest]`). -/
inductive HValue where
  | undefinedV
  | nullv
  | boolv (b : Bool)
  | numv (n : Int)
  | str (s : String)
  | headersV (h : List (String × String))
  | searchV (q : List (String × String))
  | cookiesV (c : List (String × String))
  | reqV (r : HTTPRequest)
  | nreq (orig : HTTPRequest) (method path : String) (body : HValue)
      (searchParams headers cookies : List (String × String))
      (context session : HValue)

/-- JS truthiness on the embedded values (objects are always truthy). -/
def truthy : HValue → Bool
  | .undefinedV => false
  | .nullv => false
  | .boolv b => b
  | .numv n => n != 0
  | .str s => s != ""
  | _ => true

/-- `HTTPNormalizedRequest` (types.ts:74-84). `body`, `context`, `session`
have type `any` / optional and start as `undefined`. -/
structure NormalizedRequest where
  originalRequest : HTTPRequest
  method : String
  path : String
  body : HValue
  searchParams : List (String × String)
  headers : List (String × String)
  cookies : List (String × String)
  context : HValue
  session : HValue

/-- A normalized request viewed as a plain JS value (the original positional
argument of the handler call, module.ts:153). -/
def NormalizedRequest.toHValue (r : NormalizedRequest) : HValue :=
  .nreq r.originalRequest r.method r.path r.body r.searchParams r.headers
    r.cookies r.context r.session

/-- `Partial<HTTPNormalizedRequest>`: every field may be absent. -/
structure PartialRequest where
  originalRequest : Option HTTPRequest := none
  method : Option String := none
  path : Option String := none
  body : Option HValue := none
  searchParams : Option (List (String × String)) := none
  headers : Option (List (String × String)) := none
  cookies : Option (List (String × String)) := none
  context : Option HValue := none
  session : Option HValue := none

/-- The spread `{ ...normalizedRequest, ...newReq }` (module.ts:125): every
key present in the partial record overwrites the running request's field. -/
def mergeReq (r : NormalizedRequest) (p : PartialRequest) : NormalizedRequest where
  originalRequest := p.originalRequest.getD r.originalRequest
  method := p.method.getD r.method
  path := p.path.getD r.path
  body := p.body.getD r.body
  searchParams := p.searchParams.getD r.searchParams
  headers := p.headers.getD r.headers
  cookies := p.cookies.getD r.cookies
  context := p.context.getD r.context
  session := p.session.getD r.session

/-- `HTTPNormalizedResponse` (types.ts:86-91). -/
structure NormalizedResponse where
  headers : Option (List (String × String)) := none
  body : HValue := .undefinedV
  status : Option Int := none
  cookies : List (String × String) := []

/-- `HTTPCORSOptions.origins`: `string[] | "*"`. -/
inductive OriginSpec where
  | star
  | list (l : List String)

/-- `HTTPCORSOptions` (types.ts:29-36). -/
structure CORSOptions where
  origins : Option OriginSpec := none
  allowHeaders : Option (List String) := none
  exposeHeaders : Option (List String) := none
  maxAge : Option Int := none
  allowCredentials : Option Bool := none

/-- `mergeCors` (module.ts:236-242): every defined key of the second policy
overwrites the first; `undefined` keys never overwrite. -/
def mergeCors (o1 o2 : CORSOptions) : CORSOptions where
  origins := o2.origins <|> o1.origins
  allowHeaders := o2.allowHeaders <|> o1.allowHeaders
  exposeHeaders := o2.exposeHeaders <|> o1.exposeHeaders
  maxAge := o2.maxAge <|> o1.maxAge
  allowCredentials := o2.allowCredentials <|> o1.allowCredentials

/-- A fault unwinding the pipeline: `http` is an `HTTPError` (errors.ts:3-11)
carrying its pre-built response; `err` is any other thrown `Error`, carried
by message (`No handler found ...`, `No sender found`, operation faults). -/
inductive PipeErr where
  | http (response : NormalizedResponse)
  | err (msg : String)

/-- The transport response handed back by the sender: instantiated as the
pair of arguments the sender operation received. -/
abbrev HTTPResponseV := NormalizedRequest × NormalizedResponse

/-- `CustomShadowParam.http_param_type` (types.ts:18). -/
inductive ParamType where
  | body | req | search_params | headers | context | session | cookie
deriving DecidableEq

/-- `HTTPModule._getParam` (module.ts:208-225): the switch returns
`undefined` when no injection kind is declared. -/
def _getParam (request : NormalizedRequest) : Option ParamType → HValue
  | some .body => request.body
  | some .req => .reqV request.originalRequest
  | some .search_params => .searchV request.searchParams
  | some .headers => .headersV request.headers
  | some .context => request.context
  | some .session => request.session
  | some .cookie => .cookiesV request.cookies
  | none => .undefinedV

/-- The mapper lambda of module.ts:154:
`(arg, param) => this._getParam(normalizedRequest, param?.http_param_type) || arg`.
JS `||` keeps the left operand only when it is truthy. -/
def injectArg (request : NormalizedRequest) (pt : Option ParamType)
    (arg : HValue) : HValue :=
  let v := _getParam request pt
  if truthy v then v else arg

/-- Modelled from the spec: njses `Shadow.mapArgs` (external registry code,
not under src/) "injecting positional parameters per each parameter's
declared injection kind"; it maps every positional parameter's original call
argument together with that parameter's declared metadata through the given
mapper (missing arguments are `undefined`, missing parameter metadata is
absent). -/
def mapArgs (params : List (Option ParamType)) (args : List HValue)
    (mapper : HValue → Option ParamType → HValue) : List HValue :=
  (List.range (max params.length args.length)).map
    (fun i => mapper (args.getD i .undefinedV) (params.getD i none))

/-- ASCII lowercasing of one character (for header-name comparison). -/
def lowerChar (c : Char) : Char :=
  if c.toNat ≥ 65 && c.toNat ≤ 90 then Char.ofNat (c.toNat + 32) else c

/-- Case-insensitive (ASCII) string comparison, the web `Headers` name
equivalence. -/
def eqCI (a b : String) : Bool := a.data.map lowerChar == b.data.map lowerChar

/-- `Headers.get` (web API): lookup is case-insensitive.  Returns `none` for
an absent header (JS `null`). -/
def hget (h : List (String × String)) (name : String) : Option String :=
  (h.find? (fun kv => eqCI kv.1 name)).map (·.2)

/-- `Headers.set` (web API): replace the value under the (case-insensitive)
name, or append it. -/
def hset (h : List (String × String)) (name value : String) :
    List (String × String) :=
  if h.any (fun kv => eqCI kv.1 name) then
    h.map (fun kv => if eqCI kv.1 name then (kv.1, value) else kv)
  else h ++ [(name, value)]

/-- A request-parser operation (`HTTP_FIELD.REQUEST_PARSER` method): its
registered method name, its field-level `http_matcher` (if any), and its
body, which returns a partial request or nothing and may throw.  (The
orchestrator looks the field shadow up with `Shadow.getField(assignee, ...)`
— the cache entry, not the service (module.ts:113, 162); the model carries
the field matcher the registration declared.) -/
structure POp where
  name : String
  matcher : Option Matcher := none
  fn : NormalizedRequest → Except PipeErr (Option PartialRequest)

/-- A response-refiner operation (`HTTP_FIELD.RESPONSE_REFINER` method). -/
structure ROp where
  name : String
  matcher : Option Matcher := none
  fn : NormalizedRequest → NormalizedResponse → Except PipeErr NormalizedResponse

/-- A field-scoped CORS provider (`HTTP_FIELD.CORS` prop). -/
structure COp where
  name : String
  matcher : Option Matcher := none
  fn : NormalizedRequest → Except PipeErr (Option CORSOptions)

/-- A sender operation (`HTTP_FIELD.SENDER` method). -/
abbrev SenderFn :=
  NormalizedRequest → NormalizedResponse → Except PipeErr HTTPResponseV

/-- Everything the orchestrator reads off one registered HTTP service through
the `Shadow` metadata store: its class-level matcher and priority, and its
operations by role.  `receivers` are the methods the `Receive` decorator
registers under `HTTP_FIELD.REQUEST_RECEIVE` (decorators.ts:145-147); they are
kept in the model exactly because the orchestrator never reads that role. -/
structure HService where
  name : String
  matcher : Option Matcher := none
  priority : Option Int := none
  receivers : List POp := []
  parsers : List POp := []
  refiners : List ROp := []
  sender : Option SenderFn := none
  corsStatic : Option CORSOptions := none
  corsOps : List COp := []

/-- `AssigneeCacheEntry` (module.ts:19-23), source spelling kept. -/
structure AssigneeCacheEntry where
  service : HService
  matcher : Option Matcher
  priotity : Option Int

/-- The JS `>` on `number | undefined` as used at module.ts:57
(`a.priotity! > b.priotity!`): any comparison with `undefined` is `false`. -/
def jsGTopt : Option Int → Option Int → Bool
  | some a, some b => a > b
  | _, _ => false

/-- The sort comparator of `_collectHttpServices` (module.ts:53-58). -/
def cmpEntries (a b : AssigneeCacheEntry) : Int :=
  if a.matcher.isNone && b.matcher.isSome then -1
  else if a.matcher.isSome && b.matcher.isNone then 1
  else if a.priotity == b.priotity then 0
  else if jsGTopt a.priotity b.priotity then -1 else 1

/-- Stable insertion step: `a` (earlier in registration order) stays before
the first later element `b` with `cmpEntries a b ≤ 0`. -/
def insertEntry (a : AssigneeCacheEntry) :
    List AssigneeCacheEntry → List AssigneeCacheEntry
  | [] => [a]
  | b :: l => if cmpEntries a b ≤ 0 then a :: b :: l else b :: insertEntry a l

/-- `Array.prototype.sort` with `cmpEntries`, modelled as the stable
insertion sort (ECMAScript mandates a stable sort for consistent
comparators; where `cmpEntries` is inconsistent — exactly one `priotity`
absent — ECMAScript leaves the order implementation-defined and this model
fixes the insertion-sort outcome). -/
def sortEntries : List AssigneeCacheEntry → List AssigneeCacheEntry
  | [] => []
  | a :: l => insertEntry a (sortEntries l)

/-- The `AssigneeCacheEntry` built in `_collectHttpServices`'s `map`
(module.ts:47-51): `shadow.http_matcher || null` and
`shadow.http_options?.priority`. -/
def toEntry (s : HService) : AssigneeCacheEntry :=
  { service := s, matcher := s.matcher, priotity := s.priority }

/-- The sender discovery inside `_collectHttpServices`'s `map`
(module.ts:38-46): the first service, in registration order, exposing a
`HTTP_FIELD.SENDER` method — found before the list is sorted. -/
def findSender : List HService → Option (String × SenderFn)
  | [] => none
  | s :: l =>
    match s.sender with
    | some f => some (s.name, f)
    | none => findSender l

/-- The state `_collectHttpServices` (an `@Init` method, run once) leaves on
the module: the cached sender and the sorted `_httpServices` list. -/
structure ModuleState where
  httpServices : List AssigneeCacheEntry
  sender : Option (String × SenderFn)

/-- `_collectHttpServices` (module.ts:30-59) over the registry's
registration-ordered service list. -/
def _collectHttpServices (services : List HService) : ModuleState where
  httpServices := sortEntries (services.map toEntry)
  sender := findSender services

/-- `HTTPModule.send` (module.ts:200-206). -/
def send (m : ModuleState) (request : NormalizedRequest)
    (response : NormalizedResponse) : Except PipeErr HTTPResponseV :=
  match m.sender with
  | none => .error (.err "No sender found")
  | some (_, f) => f request response

/-- `HTTPModule._emptyRequest` (module.ts:73-83). -/
def _emptyRequest (request : HTTPRequest) : NormalizedRequest where
  originalRequest := request
  method := ""
  path := ""
  body := .undefinedV
  searchParams := []
  headers := []
  cookies := []
  context := .undefinedV
  session := .undefinedV

/-- The per-request state of `_incoming`'s normalization loop
(module.ts:100-104): the running `normalizedRequest`, the discovered `path`
(`string | undefined`), `usedAssignees`, and additionally the trace of parser
operations invoked, in invocation order (for order-of-invocation claims). -/
structure NState where
  req : NormalizedRequest
  path : Option String
  used : List AssigneeCacheEntry
  trace : List String

/-- Initial loop state (module.ts:101-104). -/
def initState (request : HTTPRequest) : NState where
  req := _emptyRequest request
  path := none
  used := []
  trace := []

/-- One parser invocation (module.ts:112-127 loop body): skip when `path` is
set and the operation's field matcher rejects `normalizedRequest.path`
(line 116); otherwise invoke, and when a partial record comes back, update the
discovered `path` whenever the record has a `path` key (line 124) and
shallow-merge the record into the running request (line 125). -/
def applyParser (st : NState) (op : POp) : Except PipeErr NState :=
  if st.path.isSome && !(matchesOpt st.req.path op.matcher) then .ok st
  else
    match op.fn st.req with
    | .error e => .error e
    | .ok none => .ok { st with trace := st.trace ++ [op.name] }
    | .ok (some newReq) =>
      .ok { st with
        req := mergeReq st.req newReq
        path := match newReq.path with
          | some q => some q
          | none => st.path
        trace := st.trace ++ [op.name] }

/-- All `HTTP_FIELD.REQUEST_PARSER` methods of one candidate, in
registration order (module.ts:112). -/
def applyParsers : NState → List POp → Except PipeErr NState
  | st, [] => .ok st
  | st, op :: ops =>
    match applyParser st op with
    | .ok st' => applyParsers st' ops
    | .error e => .error e

/-- One candidate of the normalization loop (module.ts:106-128): skip it
entirely when `path` is already set and the candidate's matcher rejects it
(line 108); otherwise add it to `usedAssignees` and run its parsers. -/
def applyEntry (st : NState) (e : AssigneeCacheEntry) : Except PipeErr NState :=
  if (match st.path with
      | some p => !(matchesOpt p e.matcher)
      | none => false) then .ok st
  else applyParsers { st with used := st.used ++ [e] } e.service.parsers

/-- The whole normalization loop over `this._httpServices`. -/
def normEntries : NState → List AssigneeCacheEntry → Except PipeErr NState
  | st, [] => .ok st
  | st, e :: es =>
    match applyEntry st e with
    | .ok st' => normEntries st' es
    | .error e' => .error e'

/-- A handler-service field as `Shadow.getFields` exposes it: its name, its
`http_method` / `http_path` metadata, its declared positional parameter
injection kinds, and the method body. -/
structure FieldShadow where
  field : String
  http_method : Option String := none
  http_path : Option String := none
  params : List (Option ParamType) := []
  fn : List HValue → Except PipeErr NormalizedResponse := fun _ => .ok {}

/-- The handler service handed to `incoming`. -/
structure HandlerService where
  name : String
  fields : List FieldShadow

/-- The handler scan (module.ts:132-139): first field, in declaration order,
whose declared method and path strictly equal the normalized request's. -/
def findHandlerProp (fields : List FieldShadow) (method path : String) :
    Option FieldShadow :=
  fields.find? (fun f => f.http_method == some method && f.http_path == some path)

/-- The refinement loop body (module.ts:160-171): for each refiner of a used
service, skip it when its field matcher rejects the final path (no
`path != null` guard here), else invoke it for a replacement response. -/
def applyRefiner (nr : NormalizedRequest) (resp : NormalizedResponse)
    (op : ROp) : Except PipeErr NormalizedResponse :=
  if !(matchesOpt nr.path op.matcher) then .ok resp
  else op.fn nr resp

/-- All refiners of one used service. -/
def applyRefiners (nr : NormalizedRequest) :
    NormalizedResponse → List ROp → Except PipeErr NormalizedResponse
  | resp, [] => .ok resp
  | resp, op :: ops =>
    match applyRefiner nr resp op with
    | .ok resp' => applyRefiners nr resp' ops
    | .error e => .error e

/-- The refinement chain over `usedAssignees` in their selection order. -/
def refineAll (nr : NormalizedRequest) :
    NormalizedResponse → List AssigneeCacheEntry → Except PipeErr NormalizedResponse
  | resp, [] => .ok resp
  | resp, e :: es =>
    match applyRefiners nr resp e.service.refiners with
    | .ok resp' => refineAll nr resp' es
    | .error e' => .error e'

/-- The field-scoped CORS providers of one used service
(module.ts:248-260): skip when the field matcher rejects `request.path`,
else resolve and merge (`(await ...) || {}` merges an empty policy when the
provider returned nothing). -/
def corsOpsFold (nr : NormalizedRequest) :
    Option CORSOptions → List COp → Except PipeErr (Option CORSOptions)
  | acc, [] => .ok acc
  | acc, op :: ops =>
    if !(matchesOpt nr.path op.matcher) then corsOpsFold nr acc ops
    else
      match op.fn nr with
      | .error e => .error e
      | .ok r => corsOpsFold nr (some (mergeCors (acc.getD {}) (r.getD {}))) ops

/-- `_collectCorsOptions` (module.ts:230-264) over `usedAssignees`: merge each
used service's class-level policy, then its matching field-scoped providers. -/
def _collectCorsOptions (nr : NormalizedRequest) :
    Option CORSOptions → List AssigneeCacheEntry → Except PipeErr (Option CORSOptions)
  | acc, [] => .ok acc
  | acc, e :: es =>
    let acc1 := match e.service.corsStatic with
      | some c => some (mergeCors (acc.getD {}) c)
      | none => acc
    match corsOpsFold nr acc1 e.service.corsOps with
    | .ok acc2 => _collectCorsOptions nr acc2 es
    | .error e' => .error e'

/-- The CORS header block (module.ts:177-193): when a policy object was
collected and the request's `Origin` header is a truthy string, set the six
`Access-Control-*` headers — on `normalizedRequest.headers` (line 178), the
request's own header map.  Returns the (possibly updated) request. -/
def applyCorsHeaders (corsOptions : Option CORSOptions)
    (nr : NormalizedRequest) : NormalizedRequest :=
  match corsOptions with
  | none => nr
  | some co =>
    match hget nr.headers "Origin" with
    | none => nr
    | some origin =>
      if origin == "" then nr
      else
        let h1 := hset nr.headers "Access-Control-Allow-Origin" origin
        let h2 := hset h1 "Access-Control-Allow-Headers"
          (String.intercalate "," (co.allowHeaders.getD []))
        let h3 := hset h2 "Access-Control-Allow-Methods" nr.method
        let h4 := hset h3 "Access-Control-Expose-Headers"
          (String.intercalate "," (co.exposeHeaders.getD []))
        let h5 := hset h4 "Access-Control-Max-Age"
          (toString (match co.maxAge with
            | some n => if n != 0 then n else 600
            | none => 600))
        let h6 := hset h5 "Access-Control-Allow-Credentials"
          (if co.allowCredentials.getD false then "true" else "false")
        { nr with headers := h6 }

/-- `HTTPModule._incoming` (module.ts:97-198): normalization, handler lookup
and invocation with injected arguments, refinement, CORS header block, and
the final `send`. -/
def _incoming (m : ModuleState) (handlerService : HandlerService)
    (request : HTTPRequest) : Except PipeErr HTTPResponseV :=
  match normEntries (initState request) m.httpServices with
  | .error e => .error e
  | .ok st =>
    let normalizedRequest := st.req
    match findHandlerProp handlerService.fields normalizedRequest.method
        normalizedRequest.path with
    | none =>
      .error (.err ("No handler found for request \"" ++
        normalizedRequest.method ++ " " ++ normalizedRequest.path ++ "\""))
    | some handlerProp =>
      match handlerProp.fn
          (mapArgs handlerProp.params [normalizedRequest.toHValue]
            (fun arg param => injectArg normalizedRequest param arg)) with
      | .error e => .error e
      | .ok resp0 =>
        match refineAll normalizedRequest resp0 st.used with
        | .error e => .error e
        | .ok resp1 =>
          match _collectCorsOptions normalizedRequest none st.used with
          | .error e => .error e
          | .ok corsOptions =>
            send m (applyCorsHeaders corsOptions normalizedRequest) resp1

/-- `HTTPModule.incoming` (module.ts:88-95): the try/catch around
`_incoming`; an `HTTPError` is converted into a `send` of its embedded
response with an empty request, anything else is rethrown. -/
def incoming (m : ModuleState) (handlerService : HandlerService)
    (request : HTTPRequest) : Except PipeErr HTTPResponseV :=
  match _incoming m handlerService request with
  | .ok v => .ok v
  | .error (.http response) => send m (_emptyRequest request) response
  | .error e => .error e

/-- The normalization loop alone, from a raw request. -/
def normResult (m : ModuleState) (request : HTTPRequest) :
    Except PipeErr NState :=
  normEntries (initState request) m.httpServices

/-- Trace of parser operations invoked during normalization (in order). -/
def normTrace (m : ModuleState) (request : HTTPRequest) : Option (List String) :=
  match normResult m request with
  | .ok st => some st.trace
  | .error _ => none

/-- The discovered `path` variable after normalization. -/
def discoveredPath (m : ModuleState) (request : HTTPRequest) : Option String :=
  match normResult m request with
  | .ok st => st.path
  | .error _ => none

/-- The normalized request's `method` after normalization. -/
def normMethod (m : ModuleState) (request : HTTPRequest) : Option String :=
  match normResult m request with
  | .ok st => some st.req.method
  | .error _ => none

/-- Follows the spec's words, for comparison with `_collectHttpServices`:
"locate the first candidate (by selection order ...) exposing a send
operation" — the first entry of the *sorted* candidate list whose service
has a sender. -/
def specSelectionOrderSender (m : ModuleState) : Option (String × SenderFn) :=
  m.httpServices.findSome?
    (fun e => e.service.sender.map (fun f => (e.service.name, f)))

/-- Matcher-presence rank used by the spec's ordering rule: matcher-less
entries sort before matcher-bearing ones. -/
def matcherRank (e : AssigneeCacheEntry) : Nat :=
  if e.matcher.isSome then 1 else 0

/-- Declared priority with a default (only used under the hypothesis that
the priority is present). -/
def prD (e : AssigneeCacheEntry) : Int :=
  e.priotity.getD 0

/-- Follows the spec's words (C7): entry `a` may come before entry `b` when
`a`'s matcher class ranks lower, or the classes agree and `a`'s priority is
at least `b`'s. -/
def claimLe (a b : AssigneeCacheEntry) : Prop :=
  matcherRank a < matcherRank b ∨ (matcherRank a = matcherRank b ∧ prD b ≤ prD a)

instance (a b : AssigneeCacheEntry) : Decidable (claimLe a b) := by
  unfold claimLe; infer_instance

/-! Concrete services and environments used by the claim theorems. -/

/-- A sender that just hands back what it received. -/
def echoSender : SenderFn := fun req resp => .ok (req, resp)

/-- A `Receive`-decorated method that would set the request method. -/
def recvOp : POp :=
  { name := "recv", fn := fun _ => .ok (some { method := some "GET" }) }

/-- A parser method that changes nothing. -/
def noopParser : POp := { name := "parse", fn := fun _ => .ok none }

/-- Service with one receive operation and one parse operation. -/
def svcC1 : HService :=
  { name := "s1", receivers := [recvOp], parsers := [noopParser],
    sender := some echoSender }

def mC1 : ModuleState := _collectHttpServices [svcC1]

/-- Parser finalizing the path to "/a". -/
def parserPathA : POp :=
  { name := "pA", fn := fun _ => .ok (some { path := some "/a" }) }

/-- A later parser handing back the path "/b". -/
def parserPathB : POp :=
  { name := "pB", fn := fun _ => .ok (some { path := some "/b" }) }

def svcC2 : HService :=
  { name := "s2", parsers := [parserPathA, parserPathB], sender := some echoSender }

def svcC2a : HService :=
  { name := "s2a", parsers := [parserPathA], sender := some echoSender }

def mC2 : ModuleState := _collectHttpServices [svcC2]

def mC2a : ModuleState := _collectHttpServices [svcC2a]

/-- Parser normalizing method, path and headers (with an `Origin`). -/
def parserC3 : POp :=
  { name := "p3", fn := fun _ => .ok (some
      { method := some "GET", path := some "/x",
        headers := some [("origin", "http://a")] }) }

/-- Same parser without any `Origin` header. -/
def parserC3noOrigin : POp :=
  { name := "p3n", fn := fun _ => .ok (some
      { method := some "GET", path := some "/x" }) }

/-- Handler field answering `GET /x` with a bare 200 response. -/
def handlerField200 : FieldShadow :=
  { field := "handle", http_method := some "GET", http_path := some "/x",
    fn := fun _ => .ok { status := some 200 } }

def hsC3 : HandlerService := { name := "h3", fields := [handlerField200] }

def svcC3 : HService :=
  { name := "s3", parsers := [parserC3], sender := some echoSender,
    corsStatic := some { allowHeaders := some ["x-h"] } }

def mC3 : ModuleState := _collectHttpServices [svcC3]

def svcC3n : HService :=
  { name := "s3n", parsers := [parserC3noOrigin], sender := some echoSender,
    corsStatic := some { allowHeaders := some ["x-h"] } }

def mC3n : ModuleState := _collectHttpServices [svcC3n]

/-- Registration-first service: has a matcher and a sender. -/
def svcSendA : HService :=
  { name := "sA", matcher := some (.pred (fun _ => true)),
    sender := some echoSender }

/-- Registration-second service: matcher-less, with a sender. -/
def svcSendB : HService := { name := "sB", sender := some echoSender }

def mC4 : ModuleState := _collectHttpServices [svcSendA, svcSendB]

/-- A service with no sender at all. -/
def svcNoSender : HService := { name := "sN" }

/-- The 401 response carried by the pipeline error of the C5 example. -/
def resp401 : NormalizedResponse := { status := some 401, body := .str "Unauthorized" }

/-- Parser raising an `HTTPError` (e.g. a `SessionProvider` denying auth). -/
def parserThrowHttp : POp :=
  { name := "deny", fn := fun _ => .error (.http resp401) }

def svcC5 : HService :=
  { name := "s5", parsers := [parserThrowHttp], sender := some echoSender }

def mC5 : ModuleState := _collectHttpServices [svcC5]

/-- Parser raising an ordinary error. -/
def parserThrowErr : POp :=
  { name := "boom", fn := fun _ => .error (.err "boom") }

def svcC5e : HService :=
  { name := "s5e", parsers := [parserThrowErr], sender := some echoSender }

def mC5e : ModuleState := _collectHttpServices [svcC5e]

/-- A sender that itself raises an `HTTPError` on every call. -/
def respB : NormalizedResponse := { status := some 500 }

def svcC5x : HService :=
  { name := "s5x", parsers := [parserThrowHttp],
    sender := some (fun _ _ => .error (.http respB)) }

def mC5x : ModuleState := _collectHttpServices [svcC5x]

/-- Parser normalizing method and path only. -/
def parserGETx : POp :=
  { name := "px", fn := fun _ => .ok (some { method := some "GET", path := some "/x" }) }

/-- Sender that raises an `HTTPError` for the normally-normalized request
(path "/x") but succeeds on any other request (e.g. the empty one). -/
def svcC6 : HService :=
  { name := "s6", parsers := [parserGETx],
    sender := some (fun req resp =>
      if req.path == "/x" then .error (.http respB) else .ok (req, resp)) }

def mC6 : ModuleState := _collectHttpServices [svcC6]

/-- A module whose sender always raises the given fault. -/
def mSendThrow (e : PipeErr) : ModuleState :=
  _collectHttpServices
    [{ name := "st", parsers := [parserGETx], sender := some (fun _ _ => .error e) }]

/-- Matcher-less entry with declared priority 5, registered first. -/
def entryP5 : AssigneeCacheEntry :=
  { service := { name := "e5" }, matcher := none, priotity := some 5 }

/-- Matcher-less entry with absent priority, registered second. -/
def entryPnone : AssigneeCacheEntry :=
  { service := { name := "eN" }, matcher := none, priotity := none }

/-- The spec §8 example entries, in registration order. -/
def exM : Matcher := .pred (fun p => p == "/a")

def entryNone5 : AssigneeCacheEntry :=
  { service := { name := "a" }, matcher := none, priotity := some 5 }

def entryA10a : AssigneeCacheEntry :=
  { service := { name := "b" }, matcher := some exM, priotity := some 10 }

def entryA10b : AssigneeCacheEntry :=
  { service := { name := "c" }, matcher := some exM, priotity := some 10 }

def entryA3 : AssigneeCacheEntry :=
  { service := { name := "d" }, matcher := some exM, priotity := some 3 }

/-! Claim theorems. -/

/-- C8: for every path `p` and matchers `m1`, `m2`: a `None`/absent matcher
matches every path, the empty array matches no path, and a two-element array
matches exactly when one of its elements does. -/
theorem matcher_none_empty_anyOf (p : String) (m1 m2 : Matcher) :
    matchesOpt p none = true ∧
    matchesCk p (.anyOf []) = false ∧
    matchesCk p (.anyOf [m1, m2]) = (matchesCk p m1 || matchesCk p m2) := by
  refine ⟨rfl, rfl, ?_⟩
  simp [matchesCk, matchesAny]

/-- C1: the normalization loop never invokes `Receive`-declared operations:
for a candidate declaring one receive operation (which would set the method)
and one parse operation, the invocation trace holds only the parse operation
and the receive operation's effect is absent (`method` stays empty).  The
`Receive` decorator registers under `HTTP_FIELD.REQUEST_RECEIVE`, a member
`const.ts` never declares, and `_incoming` reads only
`HTTP_FIELD.REQUEST_PARSER` (module.ts:112). -/
theorem receive_ops_never_invoked :
    svcC1.receivers = [recvOp] ∧
    normTrace mC1 "raw" = some ["parse"] ∧
    normMethod mC1 "raw" = some "" := ⟨rfl, rfl, rfl⟩

/-- C2 counterexample: with a single candidate whose first parser returns
`path = "/a"` and whose second parser later returns `path = "/b"`, the
discovered path after normalization is `"/b"` — the later stage replaced the
already-finalized `"/a"` (which is what normalization alone yields when the
second parser is removed). -/
theorem path_not_stable_once_set :
    discoveredPath mC2a "raw" = some "/a" ∧
    discoveredPath mC2 "raw" = some "/b" := ⟨rfl, rfl⟩

/-- C2 amended: once the discovered path is set it is used to re-filter the
remaining candidates (a candidate whose matcher rejects it is skipped
untouched), but the path itself is not stable: any invoked parser whose
partial record carries a `path` field replaces it (last write wins). -/
theorem path_refilters_but_last_write_wins :
    (∀ (st : NState) (e : AssigneeCacheEntry) (p : String), st.path = some p →
      matchesOpt p e.matcher = false → applyEntry st e = .ok st) ∧
    (∀ (st : NState) (op : POp) (pr : PartialRequest) (q : String),
      (st.path.isSome && !(matchesOpt st.req.path op.matcher)) = false →
      op.fn st.req = .ok (some pr) → pr.path = some q →
      ∃ st', applyParser st op = .ok st' ∧ st'.path = some q ∧
        st'.req = mergeReq st.req pr ∧ st'.used = st.used ∧
        st'.trace = st.trace ++ [op.name]) := by
  constructor
  · intro st e p hp hm
    simp [applyEntry, hp, hm]
  · intro st op pr q hskip hfn hq
    refine ⟨{ st with
                req := mergeReq st.req pr
                path := some q
                trace := st.trace ++ [op.name] }, ?_, rfl, rfl, rfl, rfl⟩
    simp [applyParser, hskip, hfn, hq]

/-- A loop state whose path is already discovered, for the C2 witness. -/
def stPathA : NState :=
  { req := _emptyRequest "raw", path := some "/a", used := [], trace := [] }

/-- An entry whose matcher rejects every path. -/
def entryNever : AssigneeCacheEntry :=
  { service := { name := "never", matcher := some (.pred (fun _ => false)) },
    matcher := some (.pred (fun _ => false)), priotity := none }

/-- C2 witness: the amended statement applied at concrete inputs. -/
theorem path_refilters_but_last_write_wins_witness :
    (stPathA.path = some "/a" ∧
      matchesOpt "/a" entryNever.matcher = false ∧
      applyEntry stPathA entryNever = .ok stPathA) ∧
    ((stPathA.path.isSome && !(matchesOpt stPathA.req.path parserPathB.matcher))
        = false ∧
      parserPathB.fn stPathA.req = .ok (some { path := some "/b" }) ∧
      ∃ st', applyParser stPathA parserPathB = .ok st' ∧
        st'.path = some "/b" ∧
        st'.req = mergeReq stPathA.req { path := some "/b" } ∧
        st'.used = stPathA.used ∧
        st'.trace = stPathA.trace ++ ["pB"]) :=
  ⟨⟨rfl, rfl,
      path_refilters_but_last_write_wins.1 stPathA entryNever "/a" rfl rfl⟩,
    ⟨rfl, rfl,
      path_refilters_but_last_write_wins.2 stPathA parserPathB
        { path := some "/b" } "/b" rfl rfl rfl⟩⟩

/-- The headers of the response the sender received. -/
def sentRespHeaders (x : Except PipeErr HTTPResponseV) :
    Option (Option (List (String × String))) :=
  match x with
  | .ok (_, rs) => some rs.headers
  | .error _ => none

/-- One header of the request the sender received. -/
def sentReqHeader (x : Except PipeErr HTTPResponseV) (name : String) :
    Option String :=
  match x with
  | .ok (rq, _) => hget rq.headers name
  | .error _ => none

/-- C3: with a collected policy and an `Origin` header present, the code
writes the six `Access-Control-*` headers into the *request's* header map
(module.ts:178 takes `normalizedRequest.headers`), and the response handed
to the sender keeps its own headers untouched (`none` here); with no
`Origin`, nothing is set anywhere.  The claim (and spec §4.4) instead
requires the headers on the response handed to the sender. -/
theorem cors_headers_set_on_request_not_response :
    sentRespHeaders (incoming mC3 hsC3 "raw") = some none ∧
    sentReqHeader (incoming mC3 hsC3 "raw") "Access-Control-Allow-Origin"
      = some "http://a" ∧
    sentReqHeader (incoming mC3 hsC3 "raw") "Access-Control-Allow-Headers"
      = some "x-h" ∧
    sentReqHeader (incoming mC3 hsC3 "raw") "Access-Control-Allow-Methods"
      = some "GET" ∧
    sentReqHeader (incoming mC3 hsC3 "raw") "Access-Control-Expose-Headers"
      = some "" ∧
    sentReqHeader (incoming mC3 hsC3 "raw") "Access-Control-Max-Age"
      = some "600" ∧
    sentReqHeader (incoming mC3 hsC3 "raw") "Access-Control-Allow-Credentials"
      = some "false" ∧
    sentRespHeaders (incoming mC3n hsC3 "raw") = some none ∧
    sentReqHeader (incoming mC3n hsC3 "raw") "Access-Control-Allow-Origin"
      = none :=
  ⟨by rfl, by rfl, by rfl, by rfl, by rfl, by rfl, by rfl, by rfl, by rfl⟩

/-- The sender name chosen by `_collectHttpServices` is the first service in
registration order exposing a sender method. -/
theorem findSender_eq_find? (L : List HService) :
    (findSender L).map Prod.fst
      = (L.find? (fun s => s.sender.isSome)).map HService.name := by
  induction L with
  | nil => rfl
  | cons s l ih =>
    cases h : s.sender with
    | none => simpa [findSender, h, List.find?] using ih
    | some f => simp [findSender, h, List.find?]

/-- No sender is cached exactly when no registered service exposes one. -/
theorem findSender_eq_none (L : List HService) :
    findSender L = none ↔ ∀ s ∈ L, s.sender = none := by
  induction L with
  | nil => simp [findSender]
  | cons s l ih =>
    cases h : s.sender with
    | none => simp [findSender, h, ih]
    | some f => simp [findSender, h]

/-- C4 counterexample: with a matcher-bearing service `sA` registered before
a matcher-less service `sB`, both exposing senders, selection order puts
`sB` first (`specSelectionOrderSender`), yet the cached sender is `sA` —
sender discovery runs in the `map`, before the sort (module.ts:38-46). -/
theorem sender_not_first_in_selection_order :
    mC4.sender.map Prod.fst = some "sA" ∧
    (specSelectionOrderSender mC4).map Prod.fst = some "sB" ∧
    ("sA" : String) ≠ "sB" := ⟨rfl, rfl, by decide⟩

/-- C4 amended: the cached sender is the first candidate in *registration*
order (the registry's order, before the Selector's sort) exposing a send
operation; it is cached in the module state used by every request, and
sending fails with the `No sender found` error exactly when no candidate in
the whole set exposes a send operation. -/
theorem sender_first_by_registration_order :
    (∀ L : List HService, ((_collectHttpServices L).sender).map Prod.fst
      = (L.find? (fun s => s.sender.isSome)).map HService.name) ∧
    (∀ L : List HService, (_collectHttpServices L).sender = none
      ↔ ∀ s ∈ L, s.sender = none) ∧
    (∀ (L : List HService) (req : NormalizedRequest)
        (resp : NormalizedResponse), (_collectHttpServices L).sender = none →
      send (_collectHttpServices L) req resp = .error (.err "No sender found")) := by
  refine ⟨findSender_eq_find?, findSender_eq_none, ?_⟩
  intro L req resp h
  simp [send, h]

/-- C4 witness: the amended statement applied to a one-service set with no
sender. -/
theorem sender_first_by_registration_order_witness :
    (_collectHttpServices [svcNoSender]).sender = none ∧
    send (_collectHttpServices [svcNoSender]) (_emptyRequest "raw") {}
      = .error (.err "No sender found") :=
  ⟨rfl, sender_first_by_registration_order.2.2 [svcNoSender]
    (_emptyRequest "raw") {} rfl⟩

/-- C5 counterexample: when the sender itself raises an `HTTPError` (here on
every call), the catch in `incoming` routes the pipeline's `HTTPError` to the
sender, whose own `HTTPError` is not caught again — `incoming` yields the
`PipelineError` kind to its caller. -/
theorem http_error_can_reach_caller :
    incoming mC5x hsC3 "raw" = .error (.http respB) := rfl

/-- C5 amended: whenever `_incoming` raises an `HTTPError`, `incoming`
returns exactly the result of sending the error's embedded response with an
empty request built from the raw input (so the `HTTPError` reaches the
caller only if that error-path send itself fails with one); a failure of any
other kind, and a normal result, pass through unmodified. -/
theorem http_errors_routed_to_error_send :
    ∀ (m : ModuleState) (hs : HandlerService) (r : HTTPRequest),
      (∀ v, _incoming m hs r = .ok v → incoming m hs r = .ok v) ∧
      (∀ resp, _incoming m hs r = .error (.http resp) →
        incoming m hs r = send m (_emptyRequest r) resp) ∧
      (∀ msg, _incoming m hs r = .error (.err msg) →
        incoming m hs r = .error (.err msg)) := by
  intro m hs r
  refine ⟨?_, ?_, ?_⟩ <;> intro x h <;> unfold incoming <;> rw [h]

/-- C5 witness: a parser denying with a 401 `HTTPError` is routed to the
sender with the empty request; a parser failing with an ordinary error
propagates unmodified. -/
theorem http_errors_routed_to_error_send_witness :
    (_incoming mC5 hsC3 "raw" = .error (.http resp401) ∧
      incoming mC5 hsC3 "raw" = send mC5 (_emptyRequest "raw") resp401) ∧
    (_incoming mC5e hsC3 "raw" = .error (.err "boom") ∧
      incoming mC5e hsC3 "raw" = .error (.err "boom")) :=
  ⟨⟨rfl, (http_errors_routed_to_error_send mC5 hsC3 "raw").2.1 resp401 rfl⟩,
    ⟨rfl, (http_errors_routed_to_error_send mC5e hsC3 "raw").2.2 "boom" rfl⟩⟩

/-- C6 counterexample: a sender raising an `HTTPError` for the normally
normalized request (path `/x`) but succeeding on the empty request: the
error raised during `SEND` makes `_incoming` fail with that `HTTPError`,
and `incoming` *catches* it (the whole of `_incoming`, final `send`
included, sits inside the try of module.ts:89-90) and returns the second
send's output instead of propagating. -/
theorem send_http_error_is_caught :
    _incoming mC6 hsC3 "raw" = .error (.http respB) ∧
    incoming mC6 hsC3 "raw" = .ok (_emptyRequest "raw", respB) := ⟨rfl, rfl⟩

/-- C6 amended: an error raised during the normal-flow `SEND` propagates to
the caller of `incoming` when it is not a `PipelineError`; a `PipelineError`
raised there is caught like any other pipeline `HTTPError` and routed back
to the sender with an empty request. -/
theorem send_errors_propagate_unless_http :
    (∀ msg : String,
      incoming (mSendThrow (.err msg)) hsC3 "raw" = .error (.err msg)) ∧
    (∀ resp : NormalizedResponse,
      incoming (mSendThrow (.http resp)) hsC3 "raw"
        = send (mSendThrow (.http resp)) (_emptyRequest "raw") resp) := by
  exact ⟨fun msg => rfl, fun resp => rfl⟩

/-- C9 counterexample: a parameter declaring the `body` injection kind on a
request whose body is `undefined` receives the original call argument, not
the request's body field — `_getParam(...) || arg` (module.ts:154) discards
any falsy injected value. -/
theorem declared_body_not_injected_when_falsy :
    injectArg (_emptyRequest "raw") (some .body) (.str "orig") = .str "orig" ∧
    (_emptyRequest "raw").body = .undefinedV ∧
    (HValue.str "orig") ≠ HValue.undefinedV :=
  ⟨rfl, rfl, fun h => nomatch h⟩

/-- C9 amended: a parameter with no declared injection kind always receives
the original call argument; each declared kind selects the corresponding
field of the current NormalizedRequest, and that field value is substituted
exactly when it is truthy — a falsy field value (undefined body, empty
string, 0, false, ...) falls back to the original call argument. -/
theorem param_injection_truthy :
    (∀ (req : NormalizedRequest) (arg : HValue), injectArg req none arg = arg) ∧
    (∀ req : NormalizedRequest,
      _getParam req (some .body) = req.body ∧
      _getParam req (some .req) = .reqV req.originalRequest ∧
      _getParam req (some .search_params) = .searchV req.searchParams ∧
      _getParam req (some .headers) = .headersV req.headers ∧
      _getParam req (some .context) = req.context ∧
      _getParam req (some .session) = req.session ∧
      _getParam req (some .cookie) = .cookiesV req.cookies) ∧
    (∀ (req : NormalizedRequest) (pt : ParamType) (arg : HValue),
      truthy (_getParam req (some pt)) = true →
      injectArg req (some pt) arg = _getParam req (some pt)) ∧
    (∀ (req : NormalizedRequest) (pt : ParamType) (arg : HValue),
      truthy (_getParam req (some pt)) = false →
      injectArg req (some pt) arg = arg) := by
  refine ⟨fun req arg => rfl,
    fun req => ⟨rfl, rfl, rfl, rfl, rfl, rfl, rfl⟩, ?_, ?_⟩ <;>
      intro req pt arg h <;> simp [injectArg, h]

/-- A request with a truthy body, for the C9 witness. -/
def reqWithBody : NormalizedRequest :=
  { _emptyRequest "raw" with body := .str "payload" }

/-- C9 witness: the amended statement applied at a truthy body and at an
undefined body. -/
theorem param_injection_truthy_witness :
    (truthy (_getParam reqWithBody (some .body)) = true ∧
      injectArg reqWithBody (some .body) (.str "orig")
        = _getParam reqWithBody (some .body)) ∧
    (truthy (_getParam (_emptyRequest "raw") (some .body)) = false ∧
      injectArg (_emptyRequest "raw") (some .body) (.str "orig") = .str "orig") :=
  ⟨⟨rfl, param_injection_truthy.2.2.1 reqWithBody .body (.str "orig") rfl⟩,
    ⟨rfl, param_injection_truthy.2.2.2 (_emptyRequest "raw") .body
      (.str "orig") rfl⟩⟩

/-- Parsers registered in the module never return a partial record with a
`method` field. -/
def ParsersNeverSetMethod (m : ModuleState) : Prop :=
  ∀ e ∈ m.httpServices, ∀ op ∈ e.service.parsers,
    ∀ (q : NormalizedRequest) (pr : PartialRequest),
      op.fn q = .ok (some pr) → pr.method = none

/-- One parser step cannot change `method` when its partial records never
carry one. -/
theorem applyParser_method_eq {st st' : NState} {op : POp}
    (hop : ∀ (q : NormalizedRequest) (pr : PartialRequest),
      op.fn q = .ok (some pr) → pr.method = none)
    (h : applyParser st op = .ok st') : st'.req.method = st.req.method := by
  unfold applyParser at h
  split at h
  · cases h; rfl
  · cases hfn : op.fn st.req with
    | error e => rw [hfn] at h; cases h
    | ok o =>
      cases o with
      | none => rw [hfn] at h; cases h; rfl
      | some pr =>
        rw [hfn] at h
        cases h
        simp [mergeReq, hop st.req pr hfn]

/-- All parsers of one candidate preserve `method` under the same
hypothesis. -/
theorem applyParsers_method_eq {ops : List POp} :
    ∀ {st st' : NState},
      (∀ op ∈ ops, ∀ (q : NormalizedRequest) (pr : PartialRequest),
        op.fn q = .ok (some pr) → pr.method = none) →
      applyParsers st ops = .ok st' → st'.req.method = st.req.method := by
  induction ops with
  | nil => intro st st' _ h; cases h; rfl
  | cons op ops ih =>
    intro st st' hops h
    unfold applyParsers at h
    cases hstep : applyParser st op with
    | error e => rw [hstep] at h; cases h
    | ok st1 =>
      rw [hstep] at h
      have h1 := applyParser_method_eq (hops op (by simp)) hstep
      have h2 := ih (fun o ho => hops o (by simp [ho])) h
      rw [h2, h1]

/-- One candidate of the normalization loop preserves `method` when its
parsers never set one. -/
theorem applyEntry_method_eq {st st' : NState} {e : AssigneeCacheEntry}
    (he : ∀ op ∈ e.service.parsers,
      ∀ (q : NormalizedRequest) (pr : PartialRequest),
        op.fn q = .ok (some pr) → pr.method = none)
    (h : applyEntry st e = .ok st') : st'.req.method = st.req.method := by
  unfold applyEntry at h
  split at h
  · cases h; rfl
  · simpa using applyParsers_method_eq he h

/-- The whole normalization loop preserves `method` when no parser sets
one. -/
theorem normEntries_method_eq {es : List AssigneeCacheEntry} :
    ∀ {st st' : NState},
      (∀ e ∈ es, ∀ op ∈ e.service.parsers,
        ∀ (q : NormalizedRequest) (pr : PartialRequest),
          op.fn q = .ok (some pr) → pr.method = none) →
      normEntries st es = .ok st' → st'.req.method = st.req.method := by
  induction es with
  | nil => intro st st' _ h; cases h; rfl
  | cons e es ih =>
    intro st st' hes h
    unfold normEntries at h
    cases hstep : applyEntry st e with
    | error e' => rw [hstep] at h; cases h
    | ok st1 =>
      rw [hstep] at h
      have h1 := applyEntry_method_eq (hes e (by simp)) hstep
      have h2 := ih (fun x hx => hes x (by simp [hx])) h
      rw [h2, h1]

/-- C10: the empty NormalizedRequest has empty method, path, headers, search
parameters and cookies and an undefined body regardless of the raw request;
when no parser ever sets a method the normalized method stays `""`, so no
handler field declaring a non-empty method (a real HTTP verb) can be found;
and the `HTTPError` path always hands exactly this empty request to the
sender. -/
theorem empty_request_all_empty :
    (∀ r : HTTPRequest, (_emptyRequest r).originalRequest = r ∧
      (_emptyRequest r).method = "" ∧ (_emptyRequest r).path = "" ∧
      (_emptyRequest r).headers = [] ∧ (_emptyRequest r).searchParams = [] ∧
      (_emptyRequest r).cookies = [] ∧ (_emptyRequest r).body = .undefinedV) ∧
    (∀ (m : ModuleState) (r : HTTPRequest) (st : NState),
      ParsersNeverSetMethod m → normResult m r = .ok st →
      st.req.method = "") ∧
    (∀ (fields : List FieldShadow) (p : String),
      (∀ f ∈ fields, f.http_method ≠ some "") →
      findHandlerProp fields "" p = none) ∧
    (∀ (m : ModuleState) (hs : HandlerService) (r : HTTPRequest)
        (resp : NormalizedResponse),
      _incoming m hs r = .error (.http resp) →
      incoming m hs r = send m (_emptyRequest r) resp) := by
  refine ⟨fun r => ⟨rfl, rfl, rfl, rfl, rfl, rfl, rfl⟩, ?_, ?_, ?_⟩
  · intro m r st hm h
    exact normEntries_method_eq hm h
  · intro fields p hf
    rw [findHandlerProp, List.find?_eq_none]
    intro f hmem
    simp [hf f hmem]
  · intro m hs r resp h
    unfold incoming
    rw [h]

/-- The result state of normalization under `mC2a`, for the C10 witness. -/
def stC2a : NState where
  req :=
    { originalRequest := "raw"
      method := ""
      path := "/a"
      body := .undefinedV
      searchParams := []
      headers := []
      cookies := []
      context := .undefinedV
      session := .undefinedV }
  path := some "/a"
  used := [toEntry svcC2a]
  trace := ["pA"]

/-- C10 witness: applied to the module whose only parser sets just the path
and to a handler set declaring only real verbs. -/
theorem empty_request_all_empty_witness :
    (ParsersNeverSetMethod mC2a ∧ normResult mC2a "raw" = .ok stC2a ∧
      stC2a.req.method = "") ∧
    ((∀ f ∈ hsC3.fields, f.http_method ≠ some "") ∧
      findHandlerProp hsC3.fields "" "/a" = none) ∧
    (_incoming mC5 hsC3 "raw" = .error (.http resp401) ∧
      incoming mC5 hsC3 "raw" = send mC5 (_emptyRequest "raw") resp401) := by
  have hm : ParsersNeverSetMethod mC2a := by
    intro e he op hop q pr hfn
    simp [mC2a, _collectHttpServices, sortEntries, insertEntry, toEntry,
      svcC2a] at he
    subst he
    simp [toEntry, svcC2a] at hop
    subst hop
    simp [parserPathA] at hfn
    rw [← hfn]
  have hf : ∀ f ∈ hsC3.fields, f.http_method ≠ some "" := by
    intro f hmem
    simp [hsC3, handlerField200] at hmem
    subst hmem
    simp [handlerField200]
  exact ⟨⟨hm, rfl, empty_request_all_empty.2.1 mC2a "raw" stC2a hm rfl⟩,
    ⟨hf, empty_request_all_empty.2.2.1 hsC3.fields "/a" hf⟩,
    rfl, empty_request_all_empty.2.2.2 mC5 hsC3 "raw" resp401 rfl⟩

/-- With both priorities present the comparator accepts `a` before `b`
exactly when the spec's ordering rule does. -/
theorem cmpEntries_le_iff {a b : AssigneeCacheEntry} {pa pb : Int}
    (ha : a.priotity = some pa) (hb : b.priotity = some pb) :
    cmpEntries a b ≤ 0 ↔ claimLe a b := by
  unfold cmpEntries claimLe matcherRank prD
  rw [ha, hb]
  rcases a.matcher with _ | am <;> rcases b.matcher with _ | bm <;>
    rcases eq_or_ne pa pb with h | h <;>
    simp [jsGTopt, h, Option.some.injEq] <;> omega

/-- With both priorities present, a positive comparator value means the
spec's rule accepts `b` before `a`. -/
theorem cmpEntries_pos {a b : AssigneeCacheEntry} {pa pb : Int}
    (ha : a.priotity = some pa) (hb : b.priotity = some pb)
    (h : 0 < cmpEntries a b) : claimLe b a := by
  unfold cmpEntries at h
  unfold claimLe matcherRank prD
  rw [ha, hb] at h
  rw [ha, hb]
  split at h
  case isTrue hc => omega
  case isFalse hc1 =>
    split at h
    case isTrue hc2 =>
      rcases am : a.matcher with _ | x <;> rcases bm : b.matcher with _ | y <;>
        simp [am, bm] at hc2 ⊢
    case isFalse hc2 =>
      split at h
      case isTrue hc3 => omega
      case isFalse hc3 =>
        split at h
        case isTrue hc4 => omega
        case isFalse hc4 =>
          simp [jsGTopt] at hc3 hc4
          rcases am : a.matcher with _ | x <;>
            rcases bm : b.matcher with _ | y <;>
            simp [am, bm] at hc1 hc2 ⊢ <;> omega

/-- The spec's ordering rule is transitive. -/
theorem claimLe_trans {a b c : AssigneeCacheEntry}
    (h1 : claimLe a b) (h2 : claimLe b c) : claimLe a c := by
  unfold claimLe at h1 h2 ⊢
  omega

/-- Inserting permutes: the stable insertion keeps exactly the elements. -/
theorem insertEntry_perm (a : AssigneeCacheEntry)
    (l : List AssigneeCacheEntry) :
    List.Perm (insertEntry a l) (a :: l) := by
  induction l with
  | nil => exact List.Perm.refl _
  | cons b m ih =>
    unfold insertEntry
    split
    · exact List.Perm.refl _
    · exact List.Perm.trans (List.Perm.cons b ih) (List.Perm.swap a b m)

/-- The sort is a permutation of the registration list. -/
theorem sortEntries_perm (l : List AssigneeCacheEntry) :
    List.Perm (sortEntries l) l := by
  induction l with
  | nil => exact List.Perm.refl _
  | cons a m ih =>
    exact List.Perm.trans (insertEntry_perm a (sortEntries m))
      (List.Perm.cons a ih)

/-- Inserting into a list ordered by the spec's rule keeps it ordered, when
every priority is present. -/
theorem insertEntry_pairwise {a : AssigneeCacheEntry}
    {l : List AssigneeCacheEntry} (ha : a.priotity.isSome)
    (hl : ∀ e ∈ l, e.priotity.isSome) (h : l.Pairwise claimLe) :
    (insertEntry a l).Pairwise claimLe := by
  induction l with
  | nil => simp [insertEntry]
  | cons b m ih =>
    obtain ⟨pa, hpa⟩ := Option.isSome_iff_exists.mp ha
    obtain ⟨pb, hpb⟩ := Option.isSome_iff_exists.mp (hl b (by simp))
    rcases List.pairwise_cons.mp h with ⟨hb, hm⟩
    unfold insertEntry
    split
    case isTrue hc =>
      have hab : claimLe a b := (cmpEntries_le_iff hpa hpb).mp hc
      refine List.pairwise_cons.mpr ⟨?_, h⟩
      intro x hx
      rcases List.mem_cons.mp hx with rfl | hx
      · exact hab
      · exact claimLe_trans hab (hb x hx)
    case isFalse hc =>
      have hba : claimLe b a := cmpEntries_pos hpa hpb (by omega)
      refine List.pairwise_cons.mpr ⟨?_, ?_⟩
      · intro x hx
        rcases List.mem_cons.mp ((insertEntry_perm a m).mem_iff.mp hx) with
          rfl | hx
        · exact hba
        · exact hb x hx
      · exact ih (fun e he => hl e (List.mem_cons_of_mem b he)) hm

/-- The sorted candidate list is ordered by the spec's rule when every
priority is present. -/
theorem sortEntries_pairwise {l : List AssigneeCacheEntry}
    (hl : ∀ e ∈ l, e.priotity.isSome) :
    (sortEntries l).Pairwise claimLe := by
  induction l with
  | nil => simp [sortEntries]
  | cons a m ih =>
    have hm : ∀ e ∈ sortEntries m, e.priotity.isSome := fun e he =>
      hl e (List.mem_cons_of_mem a ((sortEntries_perm m).mem_iff.mp he))
    exact insertEntry_pairwise (hl a (by simp)) hm
      (ih (fun e he => hl e (List.mem_cons_of_mem a he)))

/-- When the matcher classes agree, the priorities differ and one of them is
absent, the comparator reports "left operand after right". -/
theorem cmpEntries_pos_of_one_absent {a b : AssigneeCacheEntry}
    (hrank : matcherRank a = matcherRank b)
    (habs : a.priotity = none ∨ b.priotity = none)
    (hne : a.priotity ≠ b.priotity) : 0 < cmpEntries a b := by
  have hbeq : (a.priotity == b.priotity) = false := by
    simpa using hne
  have hgt : jsGTopt a.priotity b.priotity = false := by
    rcases habs with h | h <;>
      rcases ha' : a.priotity with _ | pa <;>
      rcases hb' : b.priotity with _ | pb <;>
      simp_all [jsGTopt]
  unfold matcherRank at hrank
  unfold cmpEntries
  rw [hbeq, hgt]
  rcases am : a.matcher with _ | x <;> rcases bm : b.matcher with _ | y <;>
    simp [am, bm] at hrank ⊢

/-- C7 counterexample: two matcher-less entries, the first with declared
priority 5, the second with absent priority: the sort puts the absent-
priority entry first, because `a.priotity! > b.priotity!` is `false` for
every comparison against `undefined`, so the comparator reports "after" for
whichever operand is on the left. -/
theorem absent_priority_sorts_before_present :
    (sortEntries [entryP5, entryPnone]).map (fun e => e.service.name)
      = ["eN", "e5"] ∧
    entryP5.matcher = none ∧ entryPnone.matcher = none ∧
    entryP5.priotity = some 5 ∧ entryPnone.priotity = none :=
  ⟨rfl, rfl, rfl, rfl, rfl⟩

/-- C7 amended: when every entry declares a priority, the sorted list is a
permutation of the registration list ordered by the spec's rule
(matcher-less entries first, then by descending priority, stable — as on the
spec §8 example, whose equal-priority entries `b`, `c` keep their order);
but an absent priority is not treated as lowest: whenever exactly one of
two same-matcher-class entries declares a priority, the comparator orders
the left operand after the right one, whichever declares it. -/
theorem selector_order_with_present_priorities :
    (∀ l : List AssigneeCacheEntry, (∀ e ∈ l, e.priotity.isSome) →
      (sortEntries l).Perm l ∧ (sortEntries l).Pairwise claimLe) ∧
    ((sortEntries [entryNone5, entryA10a, entryA10b, entryA3]).map
      (fun e => e.service.name) = ["a", "b", "c", "d"]) ∧
    (∀ a b : AssigneeCacheEntry, matcherRank a = matcherRank b →
      a.priotity.isSome → b.priotity = none → 0 < cmpEntries a b) ∧
    (∀ a b : AssigneeCacheEntry, matcherRank a = matcherRank b →
      a.priotity = none → b.priotity.isSome → 0 < cmpEntries a b) := by
  refine ⟨fun l hl => ⟨sortEntries_perm l, sortEntries_pairwise hl⟩, rfl,
    ?_, ?_⟩ <;> intro a b hrank hpa hpb
  · exact cmpEntries_pos_of_one_absent hrank (Or.inr hpb)
      (by rw [hpb]; simp [Option.isSome_iff_exists] at hpa;
          obtain ⟨x, hx⟩ := hpa; simp [hx])
  · exact cmpEntries_pos_of_one_absent hrank (Or.inl hpa)
      (by rw [hpa]; simp [Option.isSome_iff_exists] at hpb;
          obtain ⟨x, hx⟩ := hpb; simp [hx])

/-- C7 witness: the amended statement applied to the spec §8 entry list and
to the mixed present/absent pair. -/
theorem selector_order_with_present_priorities_witness :
    ((∀ e ∈ [entryNone5, entryA10a, entryA10b, entryA3], e.priotity.isSome) ∧
      (sortEntries [entryNone5, entryA10a, entryA10b, entryA3]).Perm
        [entryNone5, entryA10a, entryA10b, entryA3] ∧
      (sortEntries [entryNone5, entryA10a, entryA10b, entryA3]).Pairwise
        claimLe) ∧
    (matcherRank entryP5 = matcherRank entryPnone ∧
      entryP5.priotity.isSome ∧ entryPnone.priotity = none ∧
      0 < cmpEntries entryP5 entryPnone) := by
  have hl : ∀ e ∈ [entryNone5, entryA10a, entryA10b, entryA3],
      e.priotity.isSome := by
    intro e he
    simp [entryNone5, entryA10a, entryA10b, entryA3] at he
    rcases he with h | h | h | h <;>
      simp [h, entryNone5, entryA10a, entryA10b, entryA3]
  have h1 := selector_order_with_present_priorities.1
    [entryNone5, entryA10a, entryA10b, entryA3] hl
  have h2 := selector_order_with_present_priorities.2.2.1 entryP5 entryPnone
    rfl rfl rfl
  exact ⟨⟨hl, h1.1, h1.2⟩, rfl, rfl, rfl, h2⟩

end NjsesHttp
